import Mathlib

/-!
Verification of the tg-tldr message store, FTS index synchronizer, search
executor and thread reconstructor (src/tg_tldr/db.py, search.py,
summarizer.py), as a shallow embedding.

Modelling conventions:
* jieba segmentation (`jieba.cut_for_search`) is an external collaborator;
  every operation that tokenizes is parameterized by a cutter
  `tok : String → List String`.
* `tokenize` / `tokenize_query` in search.py return space-joined strings;
  we keep the token lists.  The joined string is empty iff the list is
  empty (each kept token is nonempty, each query token is quote-wrapped),
  so the code's `if not tokenized` checks become `= []` checks here.
* SQLite timestamps are ISO-8601 strings compared lexicographically, which
  is chronological order; we model instants as `Nat` microseconds.
  `datetime.combine(d, time.min)` is `dayStart d`; `datetime.combine(d,
  time.max)` (23:59:59.999999, the day's last representable microsecond)
  is `dayEnd d`.
* Tables are lists in rowid order: `INSERT OR REPLACE` deletes the
  conflicting row and appends (the replacement gets a fresh rowid), plain
  `INSERT` appends, and an unordered `SELECT` scans in list order.
* FTS5 `MATCH` on a conjunction of quoted single-token phrases is modelled
  as membership of each term in the indexed token list.
* `ORDER BY` ties are unspecified in SQL and Python's `sorted` is stable;
  we use a stable insertion sort `sortBy`.
-/

namespace TgTldr

/-- A chat message (db.py `Message`). `timestamp` is Nat microseconds. -/
structure Message where
  id : Int
  group_id : Int
  group_name : String
  sender_id : Int
  sender_name : String
  text : String
  reply_to_msg_id : Option Int
  timestamp : Nat
deriving DecidableEq, Repr

/-- One row of the `messages_fts` table; `text` is the tokenized term list
(the code stores it space-joined). -/
structure FtsRow where
  msg_id : Int
  group_id : Int
  text : List String
deriving DecidableEq, Repr

/-- The database state: `messages` table and `messages_fts` table, both in
rowid order. -/
structure DB where
  messages : List Message
  fts : List FtsRow
deriving DecidableEq, Repr

/-- Freshly created database (empty tables). -/
def emptyDB : DB := ⟨[], []⟩

/-- Stable insertion: put `x` before the first element `y` with `le x y`. -/
def insertBy (le : α → α → Bool) (x : α) : List α → List α
  | [] => [x]
  | y :: ys => if le x y then x :: y :: ys else y :: insertBy le x ys

/-- Stable insertion sort, modelling ORDER BY / Python `sorted`. -/
def sortBy (le : α → α → Bool) : List α → List α
  | [] => []
  | x :: xs => insertBy le x (sortBy le xs)

/-- Python `str.strip()`: remove leading and trailing whitespace. -/
def strip (s : String) : String :=
  ⟨((s.data.dropWhile Char.isWhitespace).reverse.dropWhile Char.isWhitespace).reverse⟩

/-- search.py `tokenize`: empty text gives no tokens; otherwise keep the
cutter's tokens whose strip is non-empty (the code keeps the unstripped
token and joins with spaces). -/
def tokenize (tok : String → List String) (text : String) : List String :=
  if text = "" then [] else (tok text).filter (fun t => !(strip t = ""))

/-- The stripped, non-empty tokens of a query (search.py `tokenize_query`
before quoting). -/
def queryTerms (tok : String → List String) (query : String) : List String :=
  if query = "" then [] else ((tok query).map strip).filter (fun t => !(t = ""))

/-- `str.replace` of one double quote by two, at character level. -/
def escQuotes : List Char → List Char
  | [] => []
  | c :: cs => if c = '"' then '"' :: '"' :: escQuotes cs else c :: escQuotes cs

/-- Wrap a term in double quotes, doubling interior quotes
(search.py `tokenize_query`, per-token). -/
def quoteTerm (t : String) : String := ⟨'"' :: (escQuotes t.data ++ ['"'])⟩

/-- The sanitized FTS5 query tokens (search.py `tokenize_query`, which
joins them with spaces). -/
def safeTokens (tok : String → List String) (query : String) : List String :=
  (queryTerms tok query).map quoteTerm

/-- The joined FTS5 MATCH string returned by search.py `tokenize_query`. -/
def tokenize_query (tok : String → List String) (query : String) : String :=
  String.intercalate " " (safeTokens tok query)

/-- db.py `Database._index_message`: tokenize; if empty, return (note: the
old entry is NOT deleted in that case); otherwise delete any row with this
(msg_id, group_id) key, then insert the new row. -/
def indexMessage (tok : String → List String) (db : DB)
    (msg_id group_id : Int) (text : String) : DB :=
  let tokenized := tokenize tok text
  if tokenized = [] then db
  else
    { db with
      fts := (db.fts.filter
          (fun f => !(f.msg_id == msg_id && f.group_id == group_id)))
        ++ [⟨msg_id, group_id, tokenized⟩] }

/-- db.py `Database.insert_message`: INSERT OR REPLACE on the primary key
(id, group_id) — the conflicting row is deleted and the new row appended —
then `_index_message`. -/
def insert_message (tok : String → List String) (db : DB) (m : Message) : DB :=
  let db' := { db with
    messages := (db.messages.filter
        (fun x => !(x.id == m.id && x.group_id == m.group_id))) ++ [m] }
  indexMessage tok db' m.id m.group_id m.text

/-- Microseconds per day; Python datetimes have microsecond resolution. -/
def usPerDay : Nat := 86400000000

/-- `datetime.combine(d, time.min)`: first instant of day `d`. -/
def dayStart (d : Nat) : Nat := d * usPerDay

/-- `datetime.combine(d, time.max)`: last representable instant of day `d`
(23:59:59.999999). -/
def dayEnd (d : Nat) : Nat := d * usPerDay + (usPerDay - 1)

/-- db.py `Database.get_messages_by_date_and_group`: group equality and
inclusive day bounds, ORDER BY timestamp ASC. -/
def get_messages_by_date_and_group (db : DB) (group_id : Int) (d : Nat) :
    List Message :=
  sortBy (fun a b => decide (a.timestamp ≤ b.timestamp))
    (db.messages.filter (fun m =>
      m.group_id == group_id
        && decide (dayStart d ≤ m.timestamp)
        && decide (m.timestamp ≤ dayEnd d)))

/-- db.py `Database.purge_messages_before`: first delete the fts rows whose
(msg_id, group_id) key belongs to a message with timestamp strictly before
the day's start, then delete those messages; return the deleted-row count. -/
def purge_messages_before (db : DB) (d : Nat) : DB × Nat :=
  let cutoff := dayStart d
  let fts' := db.fts.filter (fun f =>
    !(db.messages.any (fun m =>
      decide (m.timestamp < cutoff) && m.id == f.msg_id && m.group_id == f.group_id)))
  let deleted := db.messages.countP (fun m => decide (m.timestamp < cutoff))
  let messages' := db.messages.filter (fun m => !(decide (m.timestamp < cutoff)))
  (⟨messages', fts'⟩, deleted)

/-- The WHERE predicate of db.py `Database.search_messages` on a joined
(fts row, message) pair: join keys, MATCH on all terms, and the optional
group / inclusive timestamp filters. -/
def searchPred (terms : List String) (group_id : Option Int)
    (date_from date_to : Option Nat) (f : FtsRow) (m : Message) : Bool :=
  m.id == f.msg_id && m.group_id == f.group_id
    && terms.all (fun t => f.text.contains t)
    && (match group_id with
        | none => true
        | some g => m.group_id == g)
    && (match date_from with
        | none => true
        | some a => decide (a ≤ m.timestamp))
    && (match date_to with
        | none => true
        | some b => decide (m.timestamp ≤ b))

/-- The joined rows satisfying the search predicate (both the count(*)
query and the page query range over exactly these). -/
def searchRows (db : DB) (terms : List String) (group_id : Option Int)
    (date_from date_to : Option Nat) : List Message :=
  db.fts.flatMap (fun f => db.messages.filter (searchPred terms group_id date_from date_to f))

/-- db.py `Database.search_messages`: empty tokenization short-circuits to
([], 0); otherwise total = count over the predicate, page = the same rows
ORDER BY timestamp DESC LIMIT `limit`. -/
def search_messages (tok : String → List String) (db : DB) (query : String)
    (group_id : Option Int) (date_from date_to : Option Nat) (limit : Nat) :
    List Message × Nat :=
  let terms := queryTerms tok query
  if terms = [] then ([], 0)
  else
    let rows := searchRows db terms group_id date_from date_to
    ((sortBy (fun a b => decide (b.timestamp ≤ a.timestamp)) rows).take limit,
      rows.length)

/-- db.py `Database.reindex_all`: DELETE FROM messages_fts, then scan the
messages table (unordered SELECT = rowid order) inserting a row for each
message with non-empty tokenization; return the number inserted. -/
def reindex_all (tok : String → List String) (db : DB) : DB × Nat :=
  let fts' := db.messages.filterMap (fun m =>
    let tokenized := tokenize tok m.text
    if tokenized = [] then none else some ⟨m.id, m.group_id, tokenized⟩)
  (⟨db.messages, fts'⟩, fts'.length)

/-- Python `msg.reply_to_msg_id in msg_map` where `msg_map` maps `m.id` to
`m` over the input list. -/
def inMsgMap (msgs : List Message) (pid : Int) : Bool :=
  msgs.any (fun m => m.id == pid)

/-- The condition under which summarizer.py `_format_messages_with_threads`
files a message under a parent: `msg.reply_to_msg_id and msg.reply_to_msg_id
in msg_map` — Python truthiness, so `None` AND `0` both fail the first
conjunct. -/
def isChildCond (msgs : List Message) (m : Message) : Bool :=
  match m.reply_to_msg_id with
  | none => false
  | some p => !(p == 0) && inMsgMap msgs p

/-- The `roots` list of `_format_messages_with_threads` (input order). -/
def rootsOf (msgs : List Message) : List Message :=
  msgs.filter (fun m => !(isChildCond msgs m))

/-- The `children[pid]` list of `_format_messages_with_threads` (input
order; sorted by timestamp only inside `build_thread`). -/
def childrenOf (msgs : List Message) (pid : Int) : List Message :=
  msgs.filter (fun m => isChildCond msgs m && m.reply_to_msg_id == some pid)

/-- `sorted(children[pid], key=lambda m: m.timestamp)` (stable, ascending). -/
def sortedChildren (msgs : List Message) (pid : Int) : List Message :=
  sortBy (fun a b => decide (a.timestamp ≤ b.timestamp)) (childrenOf msgs pid)

/-- A conversation thread (summarizer.py `Thread`). -/
structure Thread where
  root : Message
  replies : List Thread

/-- summarizer.py `build_thread`. The Python recursion is unbounded; `fuel`
bounds the depth. For inputs with pairwise-distinct ids (what
`get_messages_by_date_and_group` delivers for one scope) every
root-reachable reply chain consists of distinct messages, so depth is at
most the list length and `fuel = msgs.length` reproduces the Python result
exactly. -/
def buildThread (msgs : List Message) : Nat → Message → Thread
  | 0, m => ⟨m, []⟩
  | fuel + 1, m =>
      ⟨m, (sortedChildren msgs m.id).map (buildThread msgs fuel)⟩

/-- The thread forest `[build_thread(r) for r in roots]`. -/
def buildThreads (msgs : List Message) : List Thread :=
  (rootsOf msgs).map (buildThread msgs msgs.length)

/-- A character list in which every double quote is immediately part of an
adjacent pair: no lone quote can terminate an FTS5 string early. -/
inductive Paired : List Char → Prop
  | nil : Paired []
  | other {c : Char} {cs : List Char} : c ≠ '"' → Paired cs → Paired (c :: cs)
  | dquote {cs : List Char} : Paired cs → Paired ('"' :: '"' :: cs)

/-- A concrete cutter for witnesses: the whole string as one token. -/
def tok0 : String → List String := fun s => [s]

theorem mem_insertBy (le : α → α → Bool) (x a : α) (l : List α) :
    a ∈ insertBy le x l ↔ a = x ∨ a ∈ l := by
  induction l with
  | nil => simp [insertBy]
  | cons y ys ih =>
    by_cases h : le x y
    · simp [insertBy, h]
    · simp [insertBy, h, ih]
      tauto

theorem perm_insertBy (le : α → α → Bool) (x : α) (l : List α) :
    List.Perm (insertBy le x l) (x :: l) := by
  induction l with
  | nil => simp [insertBy]
  | cons y ys ih =>
    by_cases h : le x y
    · simp [insertBy, h]
    · rw [insertBy, if_neg h]
      exact (ih.cons y).trans (List.Perm.swap x y ys)

theorem perm_sortBy (le : α → α → Bool) (l : List α) : List.Perm (sortBy le l) l := by
  induction l with
  | nil => rfl
  | cons x xs ih => exact (perm_insertBy le x (sortBy le xs)).trans (ih.cons x)

theorem mem_sortBy (le : α → α → Bool) (a : α) (l : List α) :
    a ∈ sortBy le l ↔ a ∈ l :=
  (perm_sortBy le l).mem_iff

theorem pairwise_insertBy (le : α → α → Bool)
    (htot : ∀ a b, le a b = true ∨ le b a = true)
    (htrans : ∀ a b c, le a b = true → le b c = true → le a c = true)
    (x : α) (l : List α) (hl : l.Pairwise (fun a b => le a b = true)) :
    (insertBy le x l).Pairwise (fun a b => le a b = true) := by
  induction l with
  | nil => simp [insertBy]
  | cons y ys ih =>
    rw [List.pairwise_cons] at hl
    obtain ⟨hy, hys⟩ := hl
    by_cases h : le x y
    · rw [insertBy, if_pos h, List.pairwise_cons]
      refine ⟨?_, List.pairwise_cons.mpr ⟨hy, hys⟩⟩
      intro b hb
      rcases List.mem_cons.mp hb with hb | hb
      · exact hb ▸ h
      · exact htrans x y b h (hy b hb)
    · rw [insertBy, if_neg h, List.pairwise_cons]
      refine ⟨?_, ih hys⟩
      intro b hb
      rcases (mem_insertBy le x b ys).mp hb with hb | hb
      · cases htot x y with
        | inl hxy => exact absurd hxy h
        | inr hyx => exact hb ▸ hyx
      · exact hy b hb

theorem pairwise_sortBy (le : α → α → Bool)
    (htot : ∀ a b, le a b = true ∨ le b a = true)
    (htrans : ∀ a b c, le a b = true → le b c = true → le a c = true)
    (l : List α) : (sortBy le l).Pairwise (fun a b => le a b = true) := by
  induction l with
  | nil => exact List.Pairwise.nil
  | cons x xs ih => exact pairwise_insertBy le htot htrans x (sortBy le xs) ih

theorem length_filterMap_eq_countP (g : α → Option β) (p : α → Bool)
    (h : ∀ a, (g a).isSome = p a) (l : List α) :
    (l.filterMap g).length = l.countP p := by
  induction l with
  | nil => rfl
  | cons a as ih =>
    have ha := h a
    cases hg : g a with
    | none =>
      rw [hg] at ha
      simp [List.filterMap_cons, hg, List.countP_cons, ← ha, ih]
    | some b =>
      rw [hg] at ha
      simp [List.filterMap_cons, hg, List.countP_cons, ← ha, ih]

theorem paired_escQuotes (l : List Char) : Paired (escQuotes l) := by
  induction l with
  | nil => exact Paired.nil
  | cons c cs ih =>
    by_cases h : c = '"'
    · rw [escQuotes, if_pos h]
      exact Paired.dquote ih
    · rw [escQuotes, if_neg h]
      exact Paired.other h ih

theorem count_escQuotes (l : List Char) :
    (escQuotes l).count '"' = 2 * l.count '"' := by
  induction l with
  | nil => rfl
  | cons c cs ih =>
    by_cases h : c = '"'
    · rw [escQuotes, if_pos h]
      simp [List.count_cons, h, ih]
      omega
    · rw [escQuotes, if_neg h]
      simp [List.count_cons, h, ih]

theorem map_key_reindex (tok : String → List String) (l : List Message) :
    ((l.filterMap (fun m =>
        let tokenized := tokenize tok m.text
        if tokenized = [] then none
        else some (FtsRow.mk m.id m.group_id tokenized))).map
      (fun f => (f.msg_id, f.group_id)))
    = (l.filter (fun m => !((tokenize tok m.text).isEmpty))).map
        (fun m => (m.id, m.group_id)) := by
  induction l with
  | nil => rfl
  | cons a as ih =>
    by_cases h : tokenize tok a.text = []
    · simp [List.filterMap_cons, List.filter_cons, h, ih]
    · simp [List.filterMap_cons, List.filter_cons, h, ih]

/-! Concrete fixtures used by the evidence and witness theorems. -/

/-- A message whose text tokenizes non-trivially. -/
def msgHello : Message := ⟨1, 1, "g", 9, "alice", "hello", none, 100⟩

/-- The same primary key as `msgHello`, overwritten with whitespace-only
text (tokenizes to nothing). -/
def msgBlank : Message := ⟨1, 1, "g", 9, "alice", " ", none, 200⟩

/-- The store after inserting `msgHello` then overwriting with `msgBlank`. -/
def dbStale : DB := insert_message tok0 (insert_message tok0 emptyDB msgHello) msgBlank

/-- Root message A of the spec's thread scenario. -/
def msgA : Message := ⟨1, 1, "g", 9, "a", "root", none, 10⟩

/-- B replying to A. -/
def msgB : Message := ⟨2, 1, "g", 9, "b", "re a", some 1, 20⟩

/-- C replying to B. -/
def msgC : Message := ⟨3, 1, "g", 9, "c", "re b", some 2, 30⟩

/-- A message whose identifier is 0. -/
def msgZeroId : Message := ⟨0, 1, "g", 9, "zero", "origin", none, 10⟩

/-- A message replying to identifier 0 while `msgZeroId` is in scope. -/
def msgReplyZero : Message := ⟨7, 1, "g", 9, "replier", "re zero", some 0, 20⟩

/-- Another id-0 message, in a different group, for the C10 witness. -/
def msgOriginZero : Message := ⟨0, 2, "h", 8, "o", "zero origin", none, 50⟩

/-- A message replying to identifier 0 of that group, for the C10 witness. -/
def msgPointsZero : Message := ⟨9, 2, "h", 8, "p", "points at zero", some 0, 60⟩

/-- Message with id 2, inserted first (rowid 1). -/
def msgTwo : Message := ⟨2, 1, "g", 9, "s", "beta", none, 10⟩

/-- Message with id 1, inserted second (rowid 2). -/
def msgOne : Message := ⟨1, 1, "g", 9, "s", "alpha", none, 20⟩

/-- A store whose rowid order (2 then 1) differs from primary-key order. -/
def dbTwoOne : DB := insert_message tok0 (insert_message tok0 emptyDB msgTwo) msgOne

/-- C1 evidence: after `insert_message msgHello` then `insert_message
msgBlank` on the same key (1,1), the primary row holds the whitespace-only
text whose tokenization is empty, yet `messages_fts` still holds the stale
entry with the old tokens — `_index_message` returns before deleting the
old row when the new tokenization is empty, so the claimed invariant
(index entry iff non-empty tokenized text, never stale) fails. -/
theorem c1_stale_index_after_blank_overwrite :
    dbStale.messages = [msgBlank]
    ∧ tokenize tok0 msgBlank.text = []
    ∧ dbStale.fts = [⟨1, 1, ["hello"]⟩]
    ∧ ¬(∀ f ∈ dbStale.fts, ∃ m ∈ dbStale.messages,
        m.id = f.msg_id ∧ m.group_id = f.group_id
          ∧ tokenize tok0 m.text = f.text ∧ tokenize tok0 m.text ≠ []) := by
  decide

/-- C2: whenever the query tokenizes to no terms, `search_messages` returns
([], 0) for every store state and every group/date/limit argument; the
empty query always tokenizes to no terms, and so does any query all of
whose cut tokens strip to empty (whitespace-only queries). -/
theorem c2_empty_tokenization_short_circuits
    (tok : String → List String) (q : String) (db : DB) (gid : Option Int)
    (df dt : Option Nat) (lim : Nat) :
    (queryTerms tok q = [] →
      search_messages tok db q gid df dt lim = ([], 0))
    ∧ queryTerms tok "" = []
    ∧ ((∀ t ∈ tok q, strip t = "") → queryTerms tok q = []) := by
  refine ⟨?_, rfl, ?_⟩
  · intro h
    simp [search_messages, h]
  · intro h
    rw [queryTerms]
    split
    · rfl
    · rw [List.filter_eq_nil_iff]
      intro a ha
      rcases List.mem_map.mp ha with ⟨t, ht, rfl⟩
      simp [h t ht]

/-- C2 witness: with the one-token cutter, a whitespace-only query against
a non-empty store returns ([], 0). -/
theorem c2_witness :
    queryTerms tok0 " " = []
    ∧ search_messages tok0 (insert_message tok0 emptyDB msgHello) " "
        (some 1) (some 0) (some 1000) 50 = ([], 0) :=
  ⟨by decide,
    (c2_empty_tokenization_short_circuits tok0 " "
      (insert_message tok0 emptyDB msgHello) (some 1) (some 0) (some 1000) 50).1
      (by decide)⟩

/-- C3: every token emitted by `tokenize_query` is a raw query term wrapped
in double-quote delimiters with every interior double quote doubled (so
the interior contains no lone quote that could close the FTS5 string
early, and term text can never be read as an FTS5 operator), and the empty
query yields an empty token list / empty MATCH string. -/
theorem c3_query_terms_sanitized (tok : String → List String) (q : String) :
    safeTokens tok "" = []
    ∧ tokenize_query tok "" = ""
    ∧ ∀ s ∈ safeTokens tok q, ∃ t ∈ queryTerms tok q,
        s = quoteTerm t
        ∧ s.data = '"' :: (escQuotes t.data ++ ['"'])
        ∧ Paired (escQuotes t.data)
        ∧ (escQuotes t.data).count '"' = 2 * t.data.count '"' := by
  refine ⟨rfl, rfl, ?_⟩
  intro s hs
  rcases List.mem_map.mp hs with ⟨t, ht, rfl⟩
  exact ⟨t, ht, rfl, rfl, paired_escQuotes t.data, count_escQuotes t.data⟩

/-- C3 witness: the query containing a literal double quote is emitted as
one properly quoted token with the interior quote doubled. -/
theorem c3_witness :
    quoteTerm "a\"b" ∈ safeTokens tok0 "a\"b"
    ∧ ∃ t ∈ queryTerms tok0 "a\"b",
        quoteTerm "a\"b" = quoteTerm t
        ∧ (quoteTerm "a\"b").data = '"' :: (escQuotes t.data ++ ['"'])
        ∧ Paired (escQuotes t.data)
        ∧ (escQuotes t.data).count '"' = 2 * t.data.count '"' :=
  ⟨by decide, (c3_query_terms_sanitized tok0 "a\"b").2.2 (quoteTerm "a\"b") (by decide)⟩

/-- C4: with at least one query term, `search_messages` returns a total
equal to the number of joined records satisfying the conjunctive predicate
(MATCH on all terms, optional group equality, optional inclusive bounds);
the total is computed from the same rows as the page and is unaffected by
`limit`; the page is the limit-truncation of those same rows ordered by
timestamp descending, so every returned record is a stored message
satisfying the identical predicate. -/
theorem c4_search_total_page_consistency
    (tok : String → List String) (db : DB) (q : String) (gid : Option Int)
    (df dt : Option Nat) (lim : Nat)
    (h : queryTerms tok q ≠ []) :
    (search_messages tok db q gid df dt lim).2
        = (searchRows db (queryTerms tok q) gid df dt).length
    ∧ (∀ lim' : Nat,
        (search_messages tok db q gid df dt lim').2
          = (search_messages tok db q gid df dt lim).2)
    ∧ (search_messages tok db q gid df dt lim).1
        = (sortBy (fun a b => decide (b.timestamp ≤ a.timestamp))
            (searchRows db (queryTerms tok q) gid df dt)).take lim
    ∧ (search_messages tok db q gid df dt lim).1.Pairwise
        (fun a b => b.timestamp ≤ a.timestamp)
    ∧ (∀ m ∈ (search_messages tok db q gid df dt lim).1,
        m ∈ db.messages
          ∧ ∃ f ∈ db.fts, searchPred (queryTerms tok q) gid df dt f m = true) := by
  have e : ∀ L : Nat, search_messages tok db q gid df dt L
      = ((sortBy (fun a b => decide (b.timestamp ≤ a.timestamp))
            (searchRows db (queryTerms tok q) gid df dt)).take L,
          (searchRows db (queryTerms tok q) gid df dt).length) := by
    intro L
    simp [search_messages, h]
  have hsorted : (sortBy (fun a b => decide (b.timestamp ≤ a.timestamp))
      (searchRows db (queryTerms tok q) gid df dt)).Pairwise
        (fun a b : Message => b.timestamp ≤ a.timestamp) := by
    have := pairwise_sortBy (fun a b : Message => decide (b.timestamp ≤ a.timestamp))
      (fun a b => by
        rcases Nat.le_total b.timestamp a.timestamp with hle | hle
        · exact Or.inl (decide_eq_true hle)
        · exact Or.inr (decide_eq_true hle))
      (fun a b c hab hbc =>
        decide_eq_true (Nat.le_trans (of_decide_eq_true hbc) (of_decide_eq_true hab)))
      (searchRows db (queryTerms tok q) gid df dt)
    exact this.imp (fun hd => of_decide_eq_true hd)
  refine ⟨by rw [e lim], fun lim' => by rw [e lim', e lim], by rw [e lim], ?_, ?_⟩
  · rw [e lim]
    exact hsorted.sublist (List.take_sublist lim _)
  · intro m hm
    rw [e lim] at hm
    have hm' : m ∈ sortBy (fun a b => decide (b.timestamp ≤ a.timestamp))
        (searchRows db (queryTerms tok q) gid df dt) :=
      List.take_subset lim _ hm
    have hrows : m ∈ searchRows db (queryTerms tok q) gid df dt :=
      (mem_sortBy _ m _).mp hm'
    rcases List.mem_flatMap.mp hrows with ⟨f, hf, hmf⟩
    rcases List.mem_filter.mp hmf with ⟨hmm, hpred⟩
    exact ⟨hmm, f, hf, hpred⟩

/-- C4 witness: over a concrete two-message store, the one-term query
reports the same total at limit 1 as at limit 1000. -/
theorem c4_witness :
    queryTerms tok0 "hello" ≠ []
    ∧ (search_messages tok0
        (insert_message tok0 (insert_message tok0 emptyDB msgHello)
          ⟨2, 1, "g", 9, "bob", "hello", none, 300⟩)
        "hello" none none none 1).2
      = (search_messages tok0
          (insert_message tok0 (insert_message tok0 emptyDB msgHello)
            ⟨2, 1, "g", 9, "bob", "hello", none, 300⟩)
          "hello" none none none 1000).2 :=
  ⟨by decide,
    (c4_search_total_page_consistency tok0
        (insert_message tok0 (insert_message tok0 emptyDB msgHello)
          ⟨2, 1, "g", 9, "bob", "hello", none, 300⟩)
        "hello" none none none 1000 (by decide)).2.1 1⟩

/-- C5 counterexample: `msgReplyZero` has reply-target 0, and identifier 0
resolves in the input set (`msgZeroId` is present), so by the claim it
should become a child of `msgZeroId`; the code places it as a root (and
`msgZeroId` gets no children) because the parent check tests the field's
truthiness and 0 is falsy. -/
theorem c5_counterexample_zero_reply :
    msgReplyZero.reply_to_msg_id = some 0
    ∧ inMsgMap [msgZeroId, msgReplyZero] 0 = true
    ∧ rootsOf [msgZeroId, msgReplyZero] = [msgZeroId, msgReplyZero]
    ∧ childrenOf [msgZeroId, msgReplyZero] 0 = [] := by
  decide

/-- C5 (amended): a message is a root exactly when its reply-target is
absent, is 0, or does not resolve in the input set; every message with a
non-zero resolving reply-target is filed under that parent; children lists
are sorted ascending by timestamp and consist of in-scope messages
targeting that parent; and on the concrete scenario, [A, B→A, C→B] builds
the single chain A→B→C while dropping A makes B a root with child C. -/
theorem c5_thread_reconstruction (msgs : List Message) (m : Message)
    (hm : m ∈ msgs) :
    (m ∈ rootsOf msgs ↔
      ¬∃ p, m.reply_to_msg_id = some p ∧ p ≠ 0 ∧ inMsgMap msgs p = true)
    ∧ (∀ p, m.reply_to_msg_id = some p → p ≠ 0 → inMsgMap msgs p = true →
        m ∈ childrenOf msgs p)
    ∧ (∀ pid, (sortedChildren msgs pid).Pairwise
        (fun a b => a.timestamp ≤ b.timestamp))
    ∧ (∀ pid, ∀ c ∈ sortedChildren msgs pid,
        c ∈ msgs ∧ c.reply_to_msg_id = some pid)
    ∧ buildThreads [msgA, msgB, msgC] = [⟨msgA, [⟨msgB, [⟨msgC, []⟩]⟩]⟩]
    ∧ buildThreads [msgB, msgC] = [⟨msgB, [⟨msgC, []⟩]⟩] := by
  refine ⟨?_, ?_, ?_, ?_, rfl, rfl⟩
  · rw [rootsOf, List.mem_filter]
    cases hr : m.reply_to_msg_id with
    | none => simp [hm, isChildCond, hr]
    | some p =>
      by_cases hp : p = 0
      · subst hp
        simp [hm, isChildCond, hr]
      · simp [hm, isChildCond, hr, hp]
  · intro p hr hp hres
    rw [childrenOf, List.mem_filter]
    simp [hm, isChildCond, hr, hp, hres]
  · intro pid
    have := pairwise_sortBy (fun a b : Message => decide (a.timestamp ≤ b.timestamp))
      (fun a b => by
        rcases Nat.le_total a.timestamp b.timestamp with hle | hle
        · exact Or.inl (decide_eq_true hle)
        · exact Or.inr (decide_eq_true hle))
      (fun a b c hab hbc =>
        decide_eq_true (Nat.le_trans (of_decide_eq_true hab) (of_decide_eq_true hbc)))
      (childrenOf msgs pid)
    exact this.imp (fun hd => of_decide_eq_true hd)
  · intro pid c hc
    have hc' : c ∈ childrenOf msgs pid := (mem_sortBy _ c _).mp hc
    rcases List.mem_filter.mp hc' with ⟨hcm, hcond⟩
    rw [Bool.and_eq_true] at hcond
    exact ⟨hcm, by simpa using hcond.2⟩

/-- C5 witness: in the concrete scope [A, B→A, C→B], B has the non-zero
resolving reply-target 1 and is indeed filed under A. -/
theorem c5_witness :
    msgB ∈ [msgA, msgB, msgC]
    ∧ msgB.reply_to_msg_id = some 1
    ∧ msgB ∈ childrenOf [msgA, msgB, msgC] 1 :=
  ⟨by decide, rfl,
    (c5_thread_reconstruction [msgA, msgB, msgC] msgB (by decide)).2.1 1 rfl
      (by decide) (by decide)⟩

/-- C6: `purge_messages_before d` deletes exactly the messages with
timestamp strictly before `dayStart d`, removes exactly the index entries
keyed by a purged message, returns the count of deleted primary rows, and
retains a message timestamped exactly at the start instant. -/
theorem c6_purge_semantics (db : DB) (d : Nat) :
    (purge_messages_before db d).2
        = db.messages.countP (fun m => decide (m.timestamp < dayStart d))
    ∧ (∀ m, m ∈ (purge_messages_before db d).1.messages ↔
        m ∈ db.messages ∧ dayStart d ≤ m.timestamp)
    ∧ (∀ f, f ∈ (purge_messages_before db d).1.fts ↔
        f ∈ db.fts ∧ ¬∃ m ∈ db.messages,
          m.timestamp < dayStart d ∧ m.id = f.msg_id ∧ m.group_id = f.group_id)
    ∧ (∀ m ∈ db.messages, m.timestamp = dayStart d →
        m ∈ (purge_messages_before db d).1.messages) := by
  refine ⟨rfl, ?_, ?_, ?_⟩
  · intro m
    simp [purge_messages_before, List.mem_filter, Nat.not_lt]
  · intro f
    simp only [purge_messages_before, List.mem_filter, List.any_eq_true,
      Bool.not_eq_true', Bool.and_eq_true, decide_eq_true_eq, beq_iff_eq]
    constructor
    · rintro ⟨hf, hno⟩
      refine ⟨hf, ?_⟩
      rintro ⟨m, hm, hlt, hid, hgid⟩
      rw [List.any_eq_false] at hno
      have := hno m hm
      simp [hlt, hid, hgid] at this
    · rintro ⟨hf, hno⟩
      refine ⟨hf, ?_⟩
      rw [List.any_eq_false]
      intro m hm
      by_contra hcon
      rw [Bool.and_eq_true, Bool.and_eq_true] at hcon
      obtain ⟨⟨hlt, hid⟩, hgid⟩ := hcon
      exact hno ⟨m, hm, of_decide_eq_true hlt, by simpa using hid, by simpa using hgid⟩
  · intro m hm he
    simp [purge_messages_before, List.mem_filter, Nat.not_lt, hm, he]

/-- C6 witness: purging day 1 from a store holding one day-0 message and
one message exactly at day 1's start instant deletes one row, keeps the
boundary message, and drops the purged message's index entry. -/
theorem c6_witness :
    (⟨5, 1, "g", 9, "s", "new", none, dayStart 1⟩ : Message)
        ∈ (insert_message tok0 (insert_message tok0 emptyDB msgHello)
            ⟨5, 1, "g", 9, "s", "new", none, dayStart 1⟩).messages
    ∧ (⟨5, 1, "g", 9, "s", "new", none, dayStart 1⟩ : Message).timestamp = dayStart 1
    ∧ (⟨5, 1, "g", 9, "s", "new", none, dayStart 1⟩ : Message)
        ∈ (purge_messages_before
            (insert_message tok0 (insert_message tok0 emptyDB msgHello)
              ⟨5, 1, "g", 9, "s", "new", none, dayStart 1⟩) 1).1.messages :=
  ⟨by decide, rfl,
    (c6_purge_semantics
        (insert_message tok0 (insert_message tok0 emptyDB msgHello)
          ⟨5, 1, "g", 9, "s", "new", none, dayStart 1⟩) 1).2.2.2
      ⟨5, 1, "g", 9, "s", "new", none, dayStart 1⟩ (by decide) rfl⟩

/-- C7: `get_messages_by_date_and_group` returns a permutation of exactly
the stored messages of that group with timestamp in [dayStart, dayEnd]
(both inclusive), sorted ascending by timestamp; a message at the day's
final representable instant is included, one microsecond later (the next
day's start) is excluded. -/
theorem c7_fetch_by_group_and_date (db : DB) (gid : Int) (d : Nat) :
    List.Perm (get_messages_by_date_and_group db gid d)
        (db.messages.filter (fun m =>
          m.group_id == gid && decide (dayStart d ≤ m.timestamp)
            && decide (m.timestamp ≤ dayEnd d)))
    ∧ (get_messages_by_date_and_group db gid d).Pairwise
        (fun a b => a.timestamp ≤ b.timestamp)
    ∧ (∀ m, m ∈ get_messages_by_date_and_group db gid d ↔
        m ∈ db.messages ∧ m.group_id = gid
          ∧ dayStart d ≤ m.timestamp ∧ m.timestamp ≤ dayEnd d)
    ∧ (∀ m ∈ db.messages, m.group_id = gid → m.timestamp = dayEnd d →
        m ∈ get_messages_by_date_and_group db gid d)
    ∧ (∀ m ∈ db.messages, m.timestamp = dayEnd d + 1 →
        m ∉ get_messages_by_date_and_group db gid d) := by
  have hmem : ∀ m, m ∈ get_messages_by_date_and_group db gid d ↔
      m ∈ db.messages ∧ m.group_id = gid
        ∧ dayStart d ≤ m.timestamp ∧ m.timestamp ≤ dayEnd d := by
    intro m
    rw [get_messages_by_date_and_group, mem_sortBy, List.mem_filter]
    simp [and_assoc]
  refine ⟨perm_sortBy _ _, ?_, hmem, ?_, ?_⟩
  · have := pairwise_sortBy (fun a b : Message => decide (a.timestamp ≤ b.timestamp))
      (fun a b => by
        rcases Nat.le_total a.timestamp b.timestamp with hle | hle
        · exact Or.inl (decide_eq_true hle)
        · exact Or.inr (decide_eq_true hle))
      (fun a b c hab hbc =>
        decide_eq_true (Nat.le_trans (of_decide_eq_true hab) (of_decide_eq_true hbc)))
      (db.messages.filter (fun m =>
        m.group_id == gid && decide (dayStart d ≤ m.timestamp)
          && decide (m.timestamp ≤ dayEnd d)))
    exact this.imp (fun hd => of_decide_eq_true hd)
  · intro m hm hg he
    exact (hmem m).mpr ⟨hm, hg, by rw [he]; exact Nat.le_of_lt (Nat.lt_of_lt_of_le
      (Nat.lt_succ_self _) (by simp [dayStart, dayEnd, usPerDay])), Nat.le_of_eq he⟩
  · intro m hm he hin
    rcases (hmem m).mp hin with ⟨_, _, _, hub⟩
    rw [he] at hub
    exact Nat.not_succ_le_self _ hub

/-- C7 witness: a message timestamped at day 0's final representable
microsecond is returned by the day-0 fetch of its group. -/
theorem c7_witness :
    (⟨6, 1, "g", 9, "s", "late", none, dayEnd 0⟩ : Message)
        ∈ (insert_message tok0 emptyDB
            ⟨6, 1, "g", 9, "s", "late", none, dayEnd 0⟩).messages
    ∧ (⟨6, 1, "g", 9, "s", "late", none, dayEnd 0⟩ : Message)
        ∈ get_messages_by_date_and_group
            (insert_message tok0 emptyDB
              ⟨6, 1, "g", 9, "s", "late", none, dayEnd 0⟩) 1 0 :=
  ⟨by decide,
    (c7_fetch_by_group_and_date
        (insert_message tok0 emptyDB
          ⟨6, 1, "g", 9, "s", "late", none, dayEnd 0⟩) 1 0).2.2.2.1
      ⟨6, 1, "g", 9, "s", "late", none, dayEnd 0⟩ (by decide) rfl rfl⟩

/-- C8 counterexample: in a store where id 2 was inserted before id 1 (so
storage/rowid order is [2, 1]), `reindex_all` emits the index rows in that
storage order, which is not primary-key order — the key sequence
[(2,1), (1,1)] is not ascending. -/
theorem c8_counterexample_storage_order :
    dbTwoOne.messages.map Message.id = [2, 1]
    ∧ ((reindex_all tok0 dbTwoOne).1.fts.map (fun f => (f.msg_id, f.group_id)))
        = [(2, 1), (1, 1)]
    ∧ ¬ ((reindex_all tok0 dbTwoOne).1.fts.map
          (fun f => (f.msg_id, f.group_id))).Pairwise
        (fun a b => a.1 < b.1 ∨ (a.1 = b.1 ∧ a.2 ≤ b.2)) := by
  decide

/-- C8 (amended): `reindex_all` rebuilds the index purely from the message
store — the result is independent of the prior index contents — inserting
one entry per message with non-empty tokenization (empty-tokenization
messages are skipped), processing messages in storage (rowid/insertion)
order rather than primary-key order, and returns the number of rows
inserted, which equals the count of stored messages with non-empty
tokenized text. -/
theorem c8_reindex_semantics (tok : String → List String) (db : DB) :
    (reindex_all tok db).1.messages = db.messages
    ∧ (∀ fts0 : List FtsRow, reindex_all tok ⟨db.messages, fts0⟩ = reindex_all tok db)
    ∧ (reindex_all tok db).2
        = db.messages.countP (fun m => !((tokenize tok m.text).isEmpty))
    ∧ (reindex_all tok db).2 = (reindex_all tok db).1.fts.length
    ∧ (∀ f ∈ (reindex_all tok db).1.fts, ∃ m ∈ db.messages,
        f.msg_id = m.id ∧ f.group_id = m.group_id
          ∧ f.text = tokenize tok m.text ∧ tokenize tok m.text ≠ [])
    ∧ (∀ m ∈ db.messages, tokenize tok m.text ≠ [] →
        ∃ f ∈ (reindex_all tok db).1.fts,
          f.msg_id = m.id ∧ f.group_id = m.group_id ∧ f.text = tokenize tok m.text)
    ∧ (reindex_all tok db).1.fts.map (fun f => (f.msg_id, f.group_id))
        = (db.messages.filter (fun m => !((tokenize tok m.text).isEmpty))).map
            (fun m => (m.id, m.group_id)) := by
  refine ⟨rfl, fun fts0 => rfl, ?_, rfl, ?_, ?_, map_key_reindex tok db.messages⟩
  · exact length_filterMap_eq_countP _ _
      (fun m => by
        by_cases h : tokenize tok m.text = [] <;>
          simp [h, List.isEmpty_iff]) db.messages
  · intro f hf
    rcases List.mem_filterMap.mp hf with ⟨m, hm, hfm⟩
    by_cases h : tokenize tok m.text = []
    · simp [h] at hfm
    · rw [if_neg h] at hfm
      cases hfm
      exact ⟨m, hm, rfl, rfl, rfl, h⟩
  · intro m hm h
    refine ⟨⟨m.id, m.group_id, tokenize tok m.text⟩, ?_, rfl, rfl, rfl⟩
    exact List.mem_filterMap.mpr ⟨m, hm, by rw [if_neg h]⟩

/-- C8 witness: in a store holding one tokenizable and one whitespace-only
message, the rebuild count is the number of messages with non-empty
tokenization. -/
theorem c8_witness :
    (reindex_all tok0
        ⟨[msgHello, ⟨2, 1, "g", 9, "s", " ", none, 300⟩], [⟨9, 9, ["junk"]⟩]⟩).2
      = ([msgHello, ⟨2, 1, "g", 9, "s", " ", none, 300⟩] : List Message).countP
          (fun m => !((tokenize tok0 m.text).isEmpty)) :=
  (c8_reindex_semantics tok0
    ⟨[msgHello, ⟨2, 1, "g", 9, "s", " ", none, 300⟩], [⟨9, 9, ["junk"]⟩]⟩).2.2.1

/-- C9: rebuilding twice in a row is idempotent — the second `reindex_all`
returns the same count and leaves the identical state, so any fixed search
returns identical results and total after the first and second rebuild. -/
theorem c9_reindex_idempotent (tok : String → List String) (db : DB)
    (q : String) (gid : Option Int) (df dt : Option Nat) (lim : Nat) :
    (reindex_all tok (reindex_all tok db).1).2 = (reindex_all tok db).2
    ∧ (reindex_all tok (reindex_all tok db).1).1 = (reindex_all tok db).1
    ∧ search_messages tok (reindex_all tok (reindex_all tok db).1).1
        q gid df dt lim
      = search_messages tok (reindex_all tok db).1 q gid df dt lim :=
  ⟨rfl, rfl, rfl⟩

/-- C10: a message whose reply_to_msg_id is 0 is treated as having no
reply target and placed as a root (and filed under no parent), regardless
of whether a message with identifier 0 is present, because the parent
check tests Python truthiness and 0 is falsy. -/
theorem c10_zero_reply_is_root (msgs : List Message) (m : Message)
    (hm : m ∈ msgs) (h0 : m.reply_to_msg_id = some 0) :
    m ∈ rootsOf msgs ∧ ∀ pid : Int, m ∉ childrenOf msgs pid := by
  constructor
  · rw [rootsOf, List.mem_filter]
    exact ⟨hm, by simp [isChildCond, h0]⟩
  · intro pid hc
    rw [childrenOf, List.mem_filter] at hc
    simp [isChildCond, h0] at hc

/-- C10 witness: `msgPointsZero` replies to id 0 while the id-0 message
`msgOriginZero` is in the input set, and it is still placed as a root. -/
theorem c10_witness :
    msgPointsZero ∈ [msgOriginZero, msgPointsZero]
    ∧ msgPointsZero.reply_to_msg_id = some 0
    ∧ msgOriginZero.id = 0
    ∧ msgPointsZero ∈ rootsOf [msgOriginZero, msgPointsZero] :=
  ⟨by decide, rfl, rfl,
    (c10_zero_reply_is_root [msgOriginZero, msgPointsZero] msgPointsZero
      (by decide) rfl).1⟩

end TgTldr
